import Mathlib

/-!
# A shallow embedding of the Intcode interpreter (`src/intcode.rs`)

This file translates the Intcode virtual machine of the repository into
Lean definitions and proves or refutes the frozen specification claims
about it.

Conventions of the embedding:

* Rust `i64` values are modelled as `Int`.  The Rust casts `as usize` and
  `as isize` wrap two's-complement; they are modelled by explicit
  reductions modulo `2 ^ 64` (`toUsize`, `isizeOf`).  Plain `i64`
  arithmetic (`+`, `*`) is modelled as exact `Int` arithmetic; in the
  source an overflow would panic in debug builds, so no silent wrap is
  hidden by this choice, and no claim depends on overflowing arithmetic.
* Fallible Rust code returning `Result<T, Error>` is modelled with
  `Except VMError T`.  A Rust panic (the `.unwrap()` in
  `parse_instruction`) is modelled by the distinguished error
  `VMError.panic`, kept separate from ordinary `Error { message }`
  values, which are modelled by `VMError.err message`.
* The opcode closures (`Jump(Box::new(|p| p != 0))`, …) are denoted by
  tags carrying the predicate they close over: `Jump true` is
  "jump if non-zero" (opcode 5), `Jump false` is "jump if zero"
  (opcode 6), `Test true` is "less than" (opcode 7), `Test false` is
  "equals" (opcode 8).
* The `input_source` closure is a field `Nat → Except VMError Int` of the
  state; the default stdin-backed source is modelled as an always-failing
  source (no stdin exists in the model; no claim exercises it).
* The unbounded `loop` of `execute0` is modelled with explicit fuel; the
  `ExecResult.timeout` constructor marks fuel exhaustion and corresponds
  to a run that has not yet finished.
-/

namespace Intcode

/-- Rust `Error { message: &'static str }`, plus a distinguished
constructor for a Rust panic (used by the `.unwrap()` in
`parse_instruction`). -/
inductive VMError where
  | err (message : String)
  | panic
deriving DecidableEq, Repr

/-- `enum ParameterMode` of the source. -/
inductive ParameterMode where
  | Position
  | Immediate
  | Relative
deriving DecidableEq, Repr

/-- `struct Parameter { data: i64, mode: ParameterMode }`. -/
structure Parameter where
  data : Int
  mode : ParameterMode
deriving DecidableEq, Repr

/-- `enum Operation { Add, Multiply }`. -/
inductive Operation where
  | Add
  | Multiply
deriving DecidableEq, Repr

/-- `enum OpCode` of the source.  The jump and test closures are denoted
by the Boolean they close over: `Jump true` = opcode 5 (`|p| p != 0`),
`Jump false` = opcode 6 (`|p| p == 0`), `Test true` = opcode 7
(`|a, b| a < b`), `Test false` = opcode 8 (`|a, b| a == b`). -/
inductive OpCode where
  | Arithmetic (op : Operation)
  | Input
  | Output
  | Jump (ifNonzero : Bool)
  | Test (isLess : Bool)
  | AdjustRelativeBase
  | Halt
deriving DecidableEq, Repr

/-- `struct Instruction { opcode, parameters }`. -/
structure Instruction where
  opcode : OpCode
  parameters : List Parameter

/-- `struct Program` of the source.  `memory: Vec<i64>` is a `List Int`,
`pointer: usize` and `relative_base: usize` are `Nat`,
`input_source: Box<dyn Fn(usize) -> Result<i64>>` is a Lean function. -/
structure Program where
  memory : List Int
  pointer : Nat
  relative_base : Nat
  input_source : Nat → Except VMError Int
  input_count : Nat
  output : List Int
  running : Bool

/-- The Rust cast `x as usize` on an `i64` value `x`: two's-complement
wrap into `[0, 2^64)`. -/
def toUsize (x : Int) : Nat := (x % (2 ^ 64 : Int)).toNat

/-- The Rust cast `n as isize` on a `usize` value `n < 2^64`:
two's-complement reinterpretation into `[-2^63, 2^63)`. -/
def isizeOf (n : Nat) : Int := if n < 2 ^ 63 then (n : Int) else (n : Int) - 2 ^ 64

/-- Modelled from the spec: the default `input_source` installed by
`from_str` reads stdin, which does not exist in the model; it is
represented by a source that always fails, matching the source's
"unable to read from stdin" failure when stdin is unavailable.  No claim
exercises the default source. -/
def stdin_input_source : Nat → Except VMError Int :=
  fun _ => .error (.err "Invalid input: unable to read from stdin")

/-- Rust `str::split(',')` on the character list of the source string:
splits at every comma, keeping empty fields. -/
def split_commas : List Char → List (List Char)
  | [] => [[]]
  | c :: rest =>
    if c = ',' then [] :: split_commas rest
    else
      match split_commas rest with
      | f :: fs => (c :: f) :: fs
      | [] => [[c]]

/-- Rust `str::parse::<i64>`: an optional `+`/`-` sign followed by at
least one ASCII digit, whose value fits in the `i64` range. -/
def parse_i64 (s : List Char) : Option Int :=
  match s with
  | [] => none
  | c :: rest =>
    let signed : Int × List Char :=
      if c = '-' then (-1, rest) else if c = '+' then (1, rest) else (1, s)
    match signed with
    | (sign, digits) =>
      if digits = [] then none
      else if digits.all (fun d => d.isDigit) then
        let v : Int :=
          sign * ((digits.foldl (fun acc d => acc * 10 + (d.toNat - '0'.toNat)) 0 : Nat) : Int)
        if -(2 ^ 63) ≤ v ∧ v < 2 ^ 63 then some v else none
      else none

/-- Rust `collect::<Result<Vec<i64>, _>>` over the parsed tokens: the
whole list of values, or `none` at the first unparseable token. -/
def map_values : List (List Char) → Option (List Int)
  | [] => some []
  | t :: ts =>
    match parse_i64 t with
    | some v => (map_values ts).map (fun vs => v :: vs)
    | none => none

/-- `impl FromStr for Program::from_str`: split the source on commas,
discard empty tokens, parse every token as an `i64`; on success build the
fresh program (pointer 0, relative base 0, default input source, no
inputs consumed, empty output, not running). -/
def from_str (source_code : String) : Except VMError Program :=
  match map_values ((split_commas source_code.data).filter (fun t => ¬ t = [])) with
  | some memory =>
    .ok { memory := memory
          pointer := 0
          relative_base := 0
          input_source := stdin_input_source
          input_count := 0
          output := []
          running := false }
  | none => .error (.err "Invalid source code: invalid numbers.")

/-- `Program::get`: `Some(self.memory.get(address).cloned().unwrap_or(0))`. -/
def get (p : Program) (address : Nat) : Option Int :=
  some ((p.memory.get? address).getD 0)

/-- `Program::set`: write at `address`, growing the memory with zeroes
when `address` is at or past the current length. -/
def set (p : Program) (address : Nat) (value : Int) : Program :=
  if p.memory.length ≤ address then
    { p with memory := p.memory ++ (List.replicate (address - p.memory.length) 0 ++ [value]) }
  else
    { p with memory := p.memory.set address value }

/-- `Program::patch`: public wrapper around `set`. -/
def patch (p : Program) (address : Nat) (value : Int) : Program :=
  set p address value

/-- `Program::get_parameter`: resolve parameter `parameter` of
`instruction` according to its mode. -/
def get_parameter (p : Program) (instruction : Instruction) (parameter : Nat) : Option Int :=
  match instruction.parameters.get? parameter with
  | some param =>
    match param.mode with
    | .Position => get p (toUsize param.data)
    | .Relative => get p (toUsize (isizeOf p.relative_base + param.data))
    | .Immediate => some param.data
  | none => none

/-- `Program::get_address`: interpret a parameter as a write address,
taking relative mode into account. -/
def get_address (p : Program) (param : Parameter) : Nat :=
  match param.mode with
  | .Relative => toUsize (isizeOf p.relative_base + param.data)
  | _ => toUsize param.data

/-- `Program::request_input`: call the input source with the current
count, then increment the count (also when the source failed). -/
def request_input (p : Program) : Except VMError Int × Program :=
  (p.input_source p.input_count, { p with input_count := p.input_count + 1 })

/-- `Program::is_running`. -/
def is_running (p : Program) : Bool := p.running

/-- `Program::current`: the raw word at the instruction pointer
(`None` when the pointer is past the end of memory). -/
def current (p : Program) : Option Int :=
  p.memory.get? p.pointer

/-- `Program::offset`: the raw word `add` cells after the pointer
(`None` when past the end of memory). -/
def offset (p : Program) (add : Nat) : Option Int :=
  p.memory.get? (p.pointer + add)

/-- `Program::compute_operation`. -/
def compute_operation (operation : Operation) (a b : Int) : Int :=
  match operation with
  | .Add => a + b
  | .Multiply => a * b

/-- `Program::parse_opcode`: dispatch on `opcode_code % 100` (Rust `%`
truncates toward zero, hence `Int.tmod`); returns the opcode together
with its parameter count. -/
def parse_opcode (opcode_code : Int) : Except VMError (OpCode × Nat) :=
  if opcode_code.tmod 100 = 1 then .ok (.Arithmetic .Add, 3)
  else if opcode_code.tmod 100 = 2 then .ok (.Arithmetic .Multiply, 3)
  else if opcode_code.tmod 100 = 3 then .ok (.Input, 1)
  else if opcode_code.tmod 100 = 4 then .ok (.Output, 1)
  else if opcode_code.tmod 100 = 5 then .ok (.Jump true, 2)
  else if opcode_code.tmod 100 = 6 then .ok (.Jump false, 2)
  else if opcode_code.tmod 100 = 7 then .ok (.Test true, 3)
  else if opcode_code.tmod 100 = 8 then .ok (.Test false, 3)
  else if opcode_code.tmod 100 = 9 then .ok (.AdjustRelativeBase, 1)
  else if opcode_code.tmod 100 = 99 then .ok (.Halt, 0)
  else .error (.err "Unexpected opcode")

/-- The parameter count of each opcode, as returned by `parse_opcode`. -/
def opcode_arity : OpCode → Nat
  | .Arithmetic _ => 3
  | .Input => 1
  | .Output => 1
  | .Jump _ => 2
  | .Test _ => 3
  | .AdjustRelativeBase => 1
  | .Halt => 0

/-- The `match mode` in `parse_instruction`: `'0'` position, `'1'`
immediate, `'2'` relative, anything else position. -/
def modeOf (d : Nat) : ParameterMode :=
  if d = 0 then .Position
  else if d = 1 then .Immediate
  else if d = 2 then .Relative
  else .Position

/-- itertools `pad_using(count, |_| '0')`: pad to at least `count`
entries with `0`, keeping any extra entries. -/
def pad_using (l : List Nat) (count : Nat) : List Nat :=
  l ++ List.replicate (count - l.length) 0

/-- Structural (fuel-indexed) decimal-digit extractor, least-significant
digit first; `digits_aux n n` equals `Nat.digits 10 n` (proved below) and
is used so that runs reduce inside the kernel. -/
def digits_aux : Nat → Nat → List Nat
  | _, 0 => []
  | 0, _ + 1 => []
  | fuel + 1, n + 1 => (n + 1) % 10 :: digits_aux fuel ((n + 1) / 10)

/-- The decimal digits of `n`, least-significant first — the character
list `n.to_string().chars().rev()` of the source, for the positive
numbers that reach the digit extraction. -/
def decimal_digits (n : Nat) : List Nat := digits_aux n n

/-- The parameter-collecting iterator of `parse_instruction`: for the
`j`-th mode digit, fetch the raw word `offset (i + j + 1)` via
`.unwrap()` — a missing word is a panic. -/
def parse_params (p : Program) : List Nat → Nat → Except VMError (List Parameter)
  | [], _ => .ok []
  | m :: rest, i =>
    match offset p (i + 1) with
    | none => .error .panic
    | some d =>
      match parse_params p rest (i + 1) with
      | .ok ps => .ok ({ data := d, mode := modeOf m } :: ps)
      | .error e => .error e

/-- `Program::parse_instruction`: read the word at the pointer, decode
the opcode, extract the mode digits (the source reverses the decimal
string of the word and skips the two opcode digits — for the positive
words that reach this point this is `(decimal_digits w).drop 2`,
least-significant digit first), pad them to the parameter count, fetch
one raw parameter word per digit, and finally advance the pointer by
`parameters_count + 1`. -/
def parse_instruction (p : Program) : Except VMError (Instruction × Program) :=
  match current p with
  | none => .error (.err "Dangling internal pointer")
  | some opcode_code =>
    match parse_opcode opcode_code with
    | .error e => .error e
    | .ok (opcode, parameters_count) =>
      let modes := pad_using ((decimal_digits opcode_code.toNat).drop 2) parameters_count
      match parse_params p modes 0 with
      | .error e => .error e
      | .ok parameters =>
        .ok ({ opcode := opcode, parameters := parameters },
             { p with pointer := p.pointer + parameters_count + 1 })

/-- The body of `Program::forward` after a successful decode: execute
one decoded instruction.  Returns the `Result<bool>` of `forward`
together with the state left behind (also on error — errors do not roll
anything back). -/
def exec_instruction (p : Program) (instruction : Instruction) :
    Except VMError Bool × Program :=
  match instruction.opcode with
  | .Arithmetic operation =>
    match get_parameter p instruction 0 with
    | some operand1 =>
      match get_parameter p instruction 1 with
      | some operand2 =>
        match instruction.parameters.get? 2 with
        | some result_address =>
          (.ok true,
           set p (get_address p result_address)
             (compute_operation operation operand1 operand2))
        | none => (.error (.err "Invalid third parameter in operation (1|2)"), p)
      | none => (.error (.err "Invalid second parameter in operation (1|2)"), p)
    | none => (.error (.err "Invalid first parameter pointer in operation (1|2)"), p)
  | .Input =>
    match instruction.parameters.get? 0 with
    | some input_address =>
      match request_input p with
      | (input, p') =>
        match input with
        | .ok input => (.ok true, set p' (get_address p' input_address) input)
        | .error e => (.error e, p')
    | none => (.error (.err "Invalid first parameter pointer in input (3)"), p)
  | .Output =>
    match get_parameter p instruction 0 with
    | some output => (.ok true, { p with output := p.output ++ [output] })
    | none => (.error (.err "Invalid first parameter pointer in output (4)"), p)
  | .Jump ifNonzero =>
    match get_parameter p instruction 0 with
    | some test =>
      if (if ifNonzero then test ≠ 0 else test = 0) then
        match get_parameter p instruction 1 with
        | some new_pointer => (.ok true, { p with pointer := toUsize new_pointer })
        | none => (.error (.err "Invalid second parameter pointer in jump_if (5|6)"), p)
      else (.ok true, p)
    | none => (.error (.err "Invalid first parameter pointer in jump_if (5|6)"), p)
  | .Test isLess =>
    match get_parameter p instruction 0 with
    | some operand1 =>
      match get_parameter p instruction 1 with
      | some operand2 =>
        match instruction.parameters.get? 2 with
        | some test_result_address =>
          (.ok true,
           set p (get_address p test_result_address)
             (if (if isLess then operand1 < operand2 else operand1 = operand2)
              then 1 else 0))
        | none => (.error (.err "Invalid third parameter pointer in test (7|8)"), p)
      | none => (.error (.err "Invalid second parameter pointer in test (7|8)"), p)
    | none => (.error (.err "Invalid first parameter pointer in test (7|8)"), p)
  | .AdjustRelativeBase =>
    match get_parameter p instruction 0 with
    | some relative_base =>
      (.ok true,
       { p with relative_base := toUsize (isizeOf p.relative_base + relative_base) })
    | none => (.error (.err "Invalid parameter in adjust_relative_base (9)"), p)
  | .Halt => (.ok false, p)

/-- `Program::forward`: decode one instruction and execute it. -/
def forward (p : Program) : Except VMError Bool × Program :=
  match parse_instruction p with
  | .error e => (.error e, p)
  | .ok (instruction, p') => exec_instruction p' instruction

/-- The result of an `execute0` call: `ok` carries the returned
`Vec<i64>` (a clone of the output log) and the state left behind;
`error` carries the propagated error and the state left behind;
`timeout` marks fuel exhaustion (the source loop would still be
running). -/
inductive ExecResult where
  | ok (outputs : List Int) (p : Program)
  | error (e : VMError) (p : Program)
  | timeout (p : Program)

/-- The `loop` of `execute0`: remember the output length, run `forward`
(propagating its error), stop with the cloned output log on halt
(setting `running` to false), and additionally stop as soon as the
output log grew when `until_next_output` is set. -/
def execute_loop : Nat → Bool → Program → ExecResult
  | 0, _, p => .timeout p
  | fuel + 1, until_next_output, p =>
    match forward p with
    | (.error e, p') => .error e p'
    | (.ok false, p') => .ok p'.output { p' with running := false }
    | (.ok true, p') =>
      if p'.output.length > p.output.length ∧ until_next_output then .ok p'.output p'
      else execute_loop fuel until_next_output p'

/-- The state `execute0` starts its loop from: the pointer is reset to 0
when the program is not running (`if !self.running { self.reset(); }`),
and `running` is set. -/
def start_state (p : Program) : Program :=
  { (if p.running = false then { p with pointer := 0 } else p) with running := true }

/-- `Program::execute0`: reset the pointer when not running, set
`running`, then loop. -/
def execute0 (fuel : Nat) (until_next_output : Bool) (p : Program) : ExecResult :=
  execute_loop fuel until_next_output (start_state p)

/-- `Program::execute` (run to completion). -/
def execute (fuel : Nat) (p : Program) : ExecResult :=
  execute0 fuel false p

/-- The result of an `execute_until_next_output` call. -/
inductive NextOutputResult where
  | ok (value : Int) (p : Program)
  | error (e : VMError) (p : Program)
  | timeout (p : Program)

/-- `Program::execute_until_next_output`: run `execute0(true)`, then
return the *last* element of the returned output log, or the
`"No output"` error when that log is empty. -/
def execute_until_next_output (fuel : Nat) (p : Program) : NextOutputResult :=
  match execute0 fuel true p with
  | .timeout p' => .timeout p'
  | .error e p' => .error e p'
  | .ok outputs p' =>
    match outputs.getLast? with
    | some v => .ok v p'
    | none => .error (.err "No output") p'

/-! ## Test-harness helpers

Concrete programs for the claims are built with `fresh` (the record that
`from_str` produces, with a choice of input source).  The extractor
functions project components out of run results so that statements about
concrete runs can be evaluated without deciding equality of whole
`Program` values (which contain a function field). -/

/-- An input source that always fails (used by concrete programs that
never execute an input instruction, and to witness input failures). -/
def no_input : Nat → Except VMError Int := fun _ => .error (.err "no input")

/-- A freshly loaded program over the given memory, as `from_str`
builds it, with the failing `no_input` source. -/
def fresh (memory : List Int) : Program :=
  { memory := memory, pointer := 0, relative_base := 0,
    input_source := no_input, input_count := 0, output := [], running := false }

/-- The state left behind by an `execute0` call. -/
def execProg : ExecResult → Program
  | .ok _ p => p
  | .error _ p => p
  | .timeout p => p

/-- The output log returned by a successful `execute0` call. -/
def execOuts : ExecResult → Option (List Int)
  | .ok outs _ => some outs
  | _ => none

/-- The error of a failed `execute0` call. -/
def execErr : ExecResult → Option VMError
  | .error e _ => some e
  | _ => none

/-- The value returned by a successful `execute_until_next_output` call. -/
def nextOutValue : NextOutputResult → Option Int
  | .ok v _ => some v
  | _ => none

/-- The error of a failed `execute_until_next_output` call. -/
def nextOutErr : NextOutputResult → Option VMError
  | .error e _ => some e
  | _ => none

/-- The state left behind by an `execute_until_next_output` call. -/
def nextOutProg : NextOutputResult → Program
  | .ok _ p => p
  | .error _ p => p
  | .timeout p => p

/-- The program built by `from_str "1002,4,3,4,33"`. -/
def prog1002 : Program :=
  { memory := [1002, 4, 3, 4, 33], pointer := 0, relative_base := 0,
    input_source := stdin_input_source, input_count := 0, output := [], running := false }

/-- The program built by `from_str ""`. -/
def empty_program : Program :=
  { memory := [], pointer := 0, relative_base := 0,
    input_source := stdin_input_source, input_count := 0, output := [], running := false }

/-- The program built by `from_str "1,02,-3"`. -/
def prog_123 : Program :=
  { memory := [1, 2, -3], pointer := 0, relative_base := 0,
    input_source := stdin_input_source, input_count := 0, output := [], running := false }

/-- The wrapping `execute_until_next_output` applies to the output log
`outs` returned by `execute0(true)` (with final state `qf`): the last
element of the whole log, or the `"No output"` error when the log is
empty. -/
def finalResultOf (outs : List Int) (qf : Program) : NextOutputResult :=
  match outs.getLast? with
  | some v => .ok v qf
  | none => .error (.err "No output") qf

/-- The driver loop of the pause/resume protocol (the loop of
`run_amplifier` in `day07.rs`): call `execute_until_next_output` up to
`n` times with fuel `f`; collect the values of the calls after which the
machine is still running; stop at the first call after which it is not
(returning that final call's result), at a fatal error, or when the call
budget or fuel runs out. -/
def pump (f : Nat) : Nat → Program → Option (List Int × NextOutputResult)
  | 0, _ => none
  | n + 1, p =>
    match execute_until_next_output f p with
    | .ok v q =>
      if q.running then
        match pump f n q with
        | some (vs, r) => some (v :: vs, r)
        | none => none
      else some ([], .ok v q)
    | .error e q => some ([], .error e q)
    | .timeout _ => none

/-- Like `pump`, but concatenating the values of *all* calls made until
`is_running()` is false — the literal reading of the claimed pause/resume
equivalence, which includes the final call's returned value. -/
def pump_all (f : Nat) : Nat → Program → Option (List Int)
  | 0, _ => none
  | n + 1, p =>
    match execute_until_next_output f p with
    | .ok v q =>
      if q.running then (pump_all f n q).map (fun vs => v :: vs)
      else some [v]
    | .error _ q => if q.running then none else some []
    | .timeout _ => none

/-- The state of `fresh [104, 7, 99]` after its first
`execute_until_next_output` call: paused right after the output
instruction. -/
def prog104_paused : Program :=
  { memory := [104, 7, 99], pointer := 2, relative_base := 0,
    input_source := no_input, input_count := 0, output := [7], running := true }

/-- The state of `fresh [104, 7, 99]` after running to completion. -/
def prog104_final : Program :=
  { memory := [104, 7, 99], pointer := 3, relative_base := 0,
    input_source := no_input, input_count := 0, output := [7], running := false }

/-- The state of `fresh [3, 0]` right after decoding its input
instruction (pointer advanced past the arity-1 instruction). -/
def prog3_decoded : Program :=
  { memory := [3, 0], pointer := 2, relative_base := 0,
    input_source := no_input, input_count := 0, output := [], running := false }

/-! ## C10 -/

/-- C10: loading `1002,4,3,4,33` and running it to completion produces
an empty output log; afterwards address 4 holds 99 (the first
instruction multiplies the position-mode value at address 4, namely 33,
by the immediate literal 3 and stores 99 at address 4), the final memory
is `[1002, 4, 3, 4, 99]` so the word reached by the pointer after the
multiply was the halt opcode 99, and the machine is no longer running. -/
theorem C10_immediate_multiply :
    from_str "1002,4,3,4,33" = .ok prog1002
    ∧ execOuts (execute 10 prog1002) = some []
    ∧ (execProg (execute 10 prog1002)).output = []
    ∧ get (execProg (execute 10 prog1002)) 4 = some 99
    ∧ (execProg (execute 10 prog1002)).memory = [1002, 4, 3, 4, 99]
    ∧ (execProg (execute 10 prog1002)).running = false := by
  refine ⟨rfl, by decide, by decide, by decide, by decide, by decide⟩

/-! ## C5 -/

/-- C5: `patch` never fails (it is a total function): immediately after
`patch a v` the address `a` reads back `v`; when `a` lay at or beyond
the previous memory length, every address of the zero-filled gap between
the old length and `a` reads as 0; and on any program, reading any
address at or beyond the current memory length yields `some 0` (never a
failure). -/
theorem C5_patch_then_peek (p : Program) (a : Nat) (v : Int) :
    get (patch p a v) a = some v
    ∧ (p.memory.length ≤ a →
        ∀ b, p.memory.length ≤ b → b < a → get (patch p a v) b = some 0)
    ∧ (∀ q : Program, ∀ c, q.memory.length ≤ c → get q c = some 0) := by
  refine ⟨?_, ?_, ?_⟩
  · unfold patch set get
    by_cases h : p.memory.length ≤ a
    · simp only [if_pos h]
      rw [List.get?_eq_getElem?, List.getElem?_append_right h,
        List.getElem?_append_right (by simp)]
      simp
    · simp only [if_neg h]
      push_neg at h
      rw [List.get?_eq_getElem?]
      simp [List.getElem?_set_self, h]
  · intro h b hb hba
    unfold patch set get
    simp only [if_pos h]
    rw [List.get?_eq_getElem?, List.getElem?_append_right hb,
      List.getElem?_append_left (by simp; omega), List.getElem?_replicate]
    simp only [if_pos (by omega : b - p.memory.length < a - p.memory.length)]
    rfl
  · intro q c hc
    unfold get
    rw [List.get?_eq_none.2 hc]
    rfl

/-- Witness for C5 at a concrete input: patching address 3 of the
one-cell memory `[5]` stores 7 there, the gap address 2 reads 0, and
address 9 of the fresh program reads 0. -/
theorem C5_patch_then_peek_witness :
    get (patch (fresh [5]) 3 7) 3 = some 7
    ∧ get (patch (fresh [5]) 3 7) 2 = some 0
    ∧ get (fresh [5]) 9 = some 0 :=
  ⟨(C5_patch_then_peek (fresh [5]) 3 7).1,
   (C5_patch_then_peek (fresh [5]) 3 7).2.1 (by decide) 2 (by decide) (by decide),
   (C5_patch_then_peek (fresh [5]) 3 7).2.2 (fresh [5]) 9 (by decide)⟩

/-! ## Digit lemmas -/

/-- The fuel-indexed digit extractor agrees with `Nat.digits 10` when
given enough fuel. -/
theorem digits_aux_eq (fuel : Nat) : ∀ n, n ≤ fuel → digits_aux fuel n = Nat.digits 10 n := by
  induction fuel with
  | zero =>
    intro n hn
    obtain rfl : n = 0 := Nat.le_zero.1 hn
    simp [digits_aux]
  | succ f ih =>
    intro n hn
    cases n with
    | zero => simp [digits_aux]
    | succ m =>
      rw [digits_aux, Nat.digits_def' (by norm_num : 1 < 10) (Nat.succ_pos m)]
      congr 1
      have hlt : (m + 1) / 10 < m + 1 := Nat.div_lt_self (Nat.succ_pos m) (by norm_num)
      exact ih _ (by omega)

/-- `decimal_digits` is `Nat.digits 10`. -/
theorem decimal_digits_eq (n : Nat) : decimal_digits n = Nat.digits 10 n :=
  digits_aux_eq n n le_rfl

/-- Dropping the two opcode digits of a word yields the decimal digits
of the word divided by 100. -/
theorem digits_drop_two (w : Nat) :
    (Nat.digits 10 w).drop 2 = Nat.digits 10 (w / 100) := by
  rcases Nat.eq_zero_or_pos w with rfl | hw
  · simp
  · rw [Nat.digits_def' (by norm_num : 1 < 10) hw]
    have h100 : w / 100 = w / 10 / 10 := by
      rw [Nat.div_div_eq_div_mul]
    rcases Nat.eq_zero_or_pos (w / 10) with h0 | h10
    · rw [h100, h0]
      simp
    · rw [Nat.digits_def' (by norm_num : 1 < 10) h10, h100]
      rfl

/-! ## C7 -/

/-- The token-collection fails exactly when some token fails to parse. -/
theorem map_values_eq_none (l : List (List Char)) :
    map_values l = none ↔ ∃ t ∈ l, parse_i64 t = none := by
  induction l with
  | nil => simp [map_values]
  | cons t ts ih =>
    simp only [map_values]
    cases h : parse_i64 t with
    | none => simp [h]
    | some v => simp [h, Option.map_eq_none', ih]

/-- C7 (amended): `from_str` fails (with the malformed-program error)
exactly when some non-empty comma-separated token is not a valid `i64`;
when it succeeds, the resulting program is fresh (pointer 0, relative
base 0, no inputs consumed, empty output, not running) and its memory is
exactly the parsed integers in order.  In particular an empty source is
*not* an error: it yields an empty memory. -/
theorem C7_load (s : String) :
    ((∃ e, from_str s = .error e) ↔
      ∃ t ∈ (split_commas s.data).filter (fun t => ¬ t = []), parse_i64 t = none)
    ∧ (∀ p, from_str s = .ok p →
        map_values ((split_commas s.data).filter (fun t => ¬ t = [])) = some p.memory
        ∧ p.pointer = 0 ∧ p.relative_base = 0 ∧ p.input_count = 0
        ∧ p.output = [] ∧ p.running = false) := by
  constructor
  · rw [← map_values_eq_none]
    unfold from_str
    cases h : map_values ((split_commas s.data).filter (fun t => ¬ t = [])) with
    | none => simp
    | some mem => simp
  · intro p hp
    unfold from_str at hp
    cases h : map_values ((split_commas s.data).filter (fun t => ¬ t = [])) with
    | none => rw [h] at hp; cases hp
    | some mem =>
      rw [h] at hp
      cases hp
      exact ⟨rfl, rfl, rfl, rfl, rfl, rfl⟩

/-- C7 counterexample: loading the empty source does *not* fail — it
succeeds with an empty memory (the claim says an empty source after
discarding empty tokens is a `MalformedProgram` error). -/
theorem C7_counterexample :
    from_str "" = .ok empty_program ∧ empty_program.memory = [] :=
  ⟨rfl, rfl⟩

/-- Witness for C7 at the concrete source `"1,02,-3"`. -/
theorem C7_load_witness :
    from_str "1,02,-3" = .ok prog_123
    ∧ (map_values ((split_commas ("1,02,-3" : String).data).filter (fun t => ¬ t = []))
          = some prog_123.memory
        ∧ prog_123.pointer = 0 ∧ prog_123.relative_base = 0 ∧ prog_123.input_count = 0
        ∧ prog_123.output = [] ∧ prog_123.running = false) :=
  ⟨rfl, (C7_load "1,02,-3").2 prog_123 rfl⟩

/-! ## C6 -/

/-- The `as usize` cast of a negative `i64` value wraps two's-complement. -/
theorem toUsize_neg (x : Int) (h0 : x < 0) (h1 : -(2 ^ 64) ≤ x) :
    toUsize x = (x + 2 ^ 64).toNat := by
  unfold toUsize
  omega

/-- C6 (amended): a negative resolved address is *not* detected: the
source casts it with `as usize`, silently wrapping two's-complement to
the huge address `resolved + 2^64`.  A position- or relative-mode read
whose resolved address is negative therefore succeeds, and (whenever the
memory is smaller than `2^63` cells, as any real memory is) returns
`some 0` because the wrapped address lies past the end of memory;
the write-target computation `get_address` yields the same wrapped huge
address; no `InvalidAddress` error exists anywhere in the interpreter. -/
theorem C6_negative_address (p : Program) (ins : Instruction) (i : Nat) (par : Parameter)
    (hpar : ins.parameters.get? i = some par) :
    (par.mode = .Position → par.data < 0 → -(2 ^ 63) ≤ par.data →
      get_parameter p ins i = get p (par.data + 2 ^ 64).toNat
      ∧ (p.memory.length ≤ 2 ^ 63 → get_parameter p ins i = some 0))
    ∧ (par.mode = .Relative → isizeOf p.relative_base + par.data < 0 →
        -(2 ^ 63) ≤ isizeOf p.relative_base + par.data →
      get_parameter p ins i = get p (isizeOf p.relative_base + par.data + 2 ^ 64).toNat
      ∧ (p.memory.length ≤ 2 ^ 63 → get_parameter p ins i = some 0))
    ∧ (par.mode = .Relative → isizeOf p.relative_base + par.data < 0 →
        -(2 ^ 63) ≤ isizeOf p.relative_base + par.data →
      get_address p par = (isizeOf p.relative_base + par.data + 2 ^ 64).toNat)
    ∧ (par.mode = .Position → par.data < 0 → -(2 ^ 63) ≤ par.data →
      get_address p par = (par.data + 2 ^ 64).toNat) := by
  obtain ⟨d, m⟩ := par
  have hbig : ∀ x : Int, x < 0 → -(2 ^ 63) ≤ x →
      p.memory.length ≤ 2 ^ 63 → get p (x + 2 ^ 64).toNat = some 0 := by
    intro x hx0 hx1 hmem
    unfold get
    rw [List.get?_eq_none.2 (by omega)]
    rfl
  refine ⟨?_, ?_, ?_, ?_⟩
  · intro hmode h0 h1
    have hm : m = .Position := hmode
    subst hm
    have h0' : d < 0 := h0
    have h1' : -(2 ^ 63) ≤ d := h1
    have he : get_parameter p ins i = get p (toUsize d) := by
      unfold get_parameter
      rw [hpar]
    rw [toUsize_neg _ h0' (by omega)] at he
    exact ⟨he, fun hmem => he.trans (hbig _ h0' h1' hmem)⟩
  · intro hmode h0 h1
    have hm : m = .Relative := hmode
    subst hm
    have h0' : isizeOf p.relative_base + d < 0 := h0
    have h1' : -(2 ^ 63) ≤ isizeOf p.relative_base + d := h1
    have he : get_parameter p ins i = get p (toUsize (isizeOf p.relative_base + d)) := by
      unfold get_parameter
      rw [hpar]
    rw [toUsize_neg _ h0' (by omega)] at he
    exact ⟨he, fun hmem => he.trans (hbig _ h0' h1' hmem)⟩
  · intro hmode h0 h1
    have hm : m = .Relative := hmode
    subst hm
    have h0' : isizeOf p.relative_base + d < 0 := h0
    have h1' : -(2 ^ 63) ≤ isizeOf p.relative_base + d := h1
    have he : get_address p { data := d, mode := .Relative }
        = toUsize (isizeOf p.relative_base + d) := rfl
    rw [toUsize_neg _ h0' (by omega)] at he
    exact he
  · intro hmode h0 h1
    have hm : m = .Position := hmode
    subst hm
    have h0' : d < 0 := h0
    have h1' : -(2 ^ 63) ≤ d := h1
    have he : get_address p { data := d, mode := .Position } = toUsize d := rfl
    rw [toUsize_neg _ h0' (by omega)] at he
    exact he

/-- C6 counterexample: the program `204,-1,99` resolves the negative
relative address −1 for its output instruction, yet the run raises no
error at all: it completes normally with output log `[0]` (the claim
demands a fatal `InvalidAddress` failure). -/
theorem C6_counterexample :
    execOuts (execute 10 (fresh [204, -1, 99])) = some [0]
    ∧ execErr (execute 10 (fresh [204, -1, 99])) = none := by
  exact ⟨by decide, by decide⟩

/-- Witness for C6 at the concrete decoded output instruction of
`204,-1,99`: the relative parameter −1 resolves without failure. -/
theorem C6_negative_address_witness :
    ({ opcode := .Output, parameters := [{ data := -1, mode := .Relative }] }
        : Instruction).parameters.get? 0 = some { data := -1, mode := .Relative }
    ∧ get_parameter (fresh [204, -1, 99])
        { opcode := .Output, parameters := [{ data := -1, mode := .Relative }] } 0 = some 0 := by
  refine ⟨rfl, ?_⟩
  have h := C6_negative_address (fresh [204, -1, 99])
    { opcode := .Output, parameters := [{ data := -1, mode := .Relative }] }
    0 { data := -1, mode := .Relative } rfl
  exact (h.2.1 rfl (by decide) (by decide)).2 (by decide)

/-! ## Decoder lemmas -/

set_option maxHeartbeats 1600000 in
/-- `parse_opcode` returns the arity table of `opcode_arity`. -/
theorem parse_opcode_arity (w : Int) (o : OpCode) (n : Nat)
    (h : parse_opcode w = .ok (o, n)) : n = opcode_arity o := by
  unfold parse_opcode at h
  split_ifs at h <;> cases h <;> rfl

/-- Successful parameter collection: lengths, modes, and the raw words
read. -/
theorem parse_params_modes (p : Program) :
    ∀ (ms : List Nat) (i : Nat) (ps : List Parameter), parse_params p ms i = .ok ps →
      ps.length = ms.length
      ∧ ∀ j par, ps.get? j = some par →
          par.mode = modeOf ((ms.get? j).getD 0) ∧ offset p (i + j + 1) = some par.data := by
  intro ms
  induction ms with
  | nil =>
    intro i ps h
    cases h
    exact ⟨rfl, by intro j par hj; cases hj⟩
  | cons mhd mtl ih =>
    intro i ps h
    unfold parse_params at h
    cases ho : offset p (i + 1) with
    | none => rw [ho] at h; cases h
    | some dv =>
      rw [ho] at h
      cases hrec : parse_params p mtl (i + 1) with
      | error e => rw [hrec] at h; cases h
      | ok ps' =>
        rw [hrec] at h
        cases h
        obtain ⟨hlen, hmodes⟩ := ih (i + 1) ps' hrec
        refine ⟨by simp [hlen], ?_⟩
        intro j par hj
        cases j with
        | zero =>
          cases hj
          exact ⟨rfl, ho⟩
        | succ j' =>
          obtain ⟨hm, hd⟩ := hmodes j' par hj
          refine ⟨hm, ?_⟩
          rw [show i + (j' + 1) + 1 = (i + 1) + j' + 1 from by omega]
          exact hd

/-- Parameter collection succeeds when every required word exists. -/
theorem parse_params_ok (p : Program) :
    ∀ (ms : List Nat) (i : Nat),
      (∀ j, j < ms.length → ∃ d, offset p (i + j + 1) = some d) →
      ∃ ps, parse_params p ms i = .ok ps := by
  intro ms
  induction ms with
  | nil => exact fun i _ => ⟨[], rfl⟩
  | cons mhd mtl ih =>
    intro i hall
    obtain ⟨d, hd⟩ := hall 0 (by simp)
    have hd1 : offset p (i + 1) = some d := hd
    obtain ⟨ps', hps'⟩ := ih (i + 1) (fun j hj => by
      obtain ⟨d', hd'⟩ := hall (j + 1) (by simpa using Nat.succ_lt_succ hj)
      exact ⟨d', by rw [show (i + 1) + j + 1 = i + (j + 1) + 1 from by omega]; exact hd'⟩)
    refine ⟨{ data := d, mode := modeOf mhd } :: ps', ?_⟩
    unfold parse_params
    rw [hd1, hps']

/-- Parameter collection panics when some required word is missing. -/
theorem parse_params_panic (p : Program) :
    ∀ (ms : List Nat) (i : Nat),
      (∃ j, j < ms.length ∧ offset p (i + j + 1) = none) →
      parse_params p ms i = .error .panic := by
  intro ms
  induction ms with
  | nil => rintro i ⟨j, hj, _⟩; cases hj
  | cons mhd mtl ih =>
    rintro i ⟨j, hj, hnone⟩
    unfold parse_params
    cases ho : offset p (i + 1) with
    | none => rfl
    | some dv =>
      have hj' : ∃ j', j' < mtl.length ∧ offset p ((i + 1) + j' + 1) = none := by
        cases j with
        | zero =>
          have h0 : offset p (i + 1) = none := hnone
          rw [h0] at ho
          cases ho
        | succ j' =>
          refine ⟨j', by simpa using hj, ?_⟩
          rw [show (i + 1) + j' + 1 = i + (j' + 1) + 1 from by omega]
          exact hnone
      rw [ih (i + 1) hj']

/-- When the opcode is unknown, `parse_instruction` propagates the
decode error. -/
theorem parse_instruction_err (p : Program) (w : Int) (e : VMError)
    (hw : current p = some w) (ho : parse_opcode w = .error e) :
    parse_instruction p = .error e := by
  unfold parse_instruction
  rw [hw]
  simp only [ho]

/-- What `parse_instruction` computes once the word and opcode are
known. -/
theorem parse_instruction_eq (p : Program) (w : Int) (o : OpCode) (n : Nat)
    (hw : current p = some w) (ho : parse_opcode w = .ok (o, n)) :
    parse_instruction p =
      match parse_params p (pad_using ((decimal_digits w.toNat).drop 2) n) 0 with
      | .error e => .error e
      | .ok ps => .ok ({ opcode := o, parameters := ps },
          { p with pointer := p.pointer + n + 1 }) := by
  unfold parse_instruction
  rw [hw]
  simp only [ho]

/-- Padding does not change the digit selected at any position (absent
digits read as 0 on both sides). -/
theorem pad_using_getD (l : List Nat) (n j : Nat) :
    ((pad_using l n).get? j).getD 0 = ((l.get? j)).getD 0 := by
  unfold pad_using
  rcases lt_or_ge j l.length with h | h
  · rw [List.get?_eq_getElem?, List.getElem?_append_left h, ← List.get?_eq_getElem?]
  · rw [List.get?_eq_getElem?, List.getElem?_append_right h, List.getElem?_replicate,
      List.get?_eq_none.2 h]
    split <;> rfl

/-- Execution of a decoded instruction only looks at the first
`opcode_arity` parameters: appending extra parameters changes nothing. -/
theorem exec_prefix (p : Program) (o : OpCode) (ps rest : List Parameter)
    (h : opcode_arity o ≤ ps.length) :
    exec_instruction p { opcode := o, parameters := ps ++ rest }
      = exec_instruction p { opcode := o, parameters := ps } := by
  have hget : ∀ k, k < opcode_arity o → (ps ++ rest).get? k = ps.get? k := by
    intro k hk
    rw [List.get?_eq_getElem?, List.get?_eq_getElem?, List.getElem?_append_left (by omega)]
  cases o with
  | Arithmetic op =>
    have e0 := hget 0 (by simp [opcode_arity])
    have e1 := hget 1 (by simp [opcode_arity])
    have e2 := hget 2 (by simp [opcode_arity])
    simp only [exec_instruction, get_parameter, e0, e1, e2]
  | Input =>
    have e0 := hget 0 (by simp [opcode_arity])
    simp only [exec_instruction, get_parameter, e0]
  | Output =>
    have e0 := hget 0 (by simp [opcode_arity])
    simp only [exec_instruction, get_parameter, e0]
  | Jump ifNonzero =>
    have e0 := hget 0 (by simp [opcode_arity])
    have e1 := hget 1 (by simp [opcode_arity])
    simp only [exec_instruction, get_parameter, e0, e1]
  | Test isLess =>
    have e0 := hget 0 (by simp [opcode_arity])
    have e1 := hget 1 (by simp [opcode_arity])
    have e2 := hget 2 (by simp [opcode_arity])
    simp only [exec_instruction, get_parameter, e0, e1, e2]
  | AdjustRelativeBase =>
    have e0 := hget 0 (by simp [opcode_arity])
    simp only [exec_instruction, get_parameter, e0]
  | Halt => rfl

/-! ## C1 -/

set_option maxHeartbeats 3200000 in
/-- C1 (amended): decoding at a word `w` yields opcode `w mod 100`
(Rust's truncated `%`), failing with the unknown-opcode error exactly
when `w mod 100` is outside the supported set; every decoded parameter's
mode is given by the corresponding least-significant decimal digit of
`w / 100` (0 position, 1 immediate, 2 relative, defaulting to position
when absent); but digits beyond the opcode's arity are *not* ignored:
each one makes the decoder fetch one further raw parameter word (which
panics when that word lies past the end of memory — see the
counterexample); only when decoding succeeds do the extra parameters
have no effect on execution. -/
theorem C1_decoding (p : Program) (w : Int) (hw : current p = some w) :
    ((∃ o n, parse_opcode w = .ok (o, n)) ↔
      w.tmod 100 ∈ ([1, 2, 3, 4, 5, 6, 7, 8, 9, 99] : List Int))
    ∧ (∀ e, parse_opcode w = .error e → e = .err "Unexpected opcode")
    ∧ (∀ ins p₂, parse_instruction p = .ok (ins, p₂) →
        ∀ i par, ins.parameters.get? i = some par →
          par.mode = modeOf (((Nat.digits 10 (w.toNat / 100)).get? i).getD 0))
    ∧ (∀ o n ps rest, parse_opcode w = .ok (o, n) → n ≤ ps.length →
        exec_instruction p { opcode := o, parameters := ps ++ rest }
          = exec_instruction p { opcode := o, parameters := ps }) := by
  refine ⟨?_, ?_, ?_, ?_⟩
  · unfold parse_opcode
    split_ifs with h1 h2 h3 h4 h5 h6 h7 h8 h9 h10 <;>
      simp_all
  · intro e he
    unfold parse_opcode at he
    split_ifs at he <;> cases he <;> rfl
  · intro ins p₂ hins i par hpar
    cases ho : parse_opcode w with
    | error e => rw [parse_instruction_err p w e hw ho] at hins; cases hins
    | ok res =>
      obtain ⟨o, n⟩ := res
      rw [parse_instruction_eq p w o n hw ho] at hins
      cases hps : parse_params p (pad_using ((decimal_digits w.toNat).drop 2) n) 0 with
      | error e => rw [hps] at hins; cases hins
      | ok ps =>
        rw [hps] at hins
        cases hins
        obtain ⟨-, hmodes⟩ := parse_params_modes p _ _ _ hps
        obtain ⟨hm, -⟩ := hmodes i par hpar
        rw [hm, pad_using_getD, decimal_digits_eq, digits_drop_two]
  · intro o n ps rest ho hn
    exact exec_prefix p o ps rest (by rw [← parse_opcode_arity w o n ho]; exact hn)

/-- Witness for C1 at the word 1002 of the concrete program
`1002,4,3,4,33`. -/
theorem C1_decoding_witness :
    current (fresh [1002, 4, 3, 4, 33]) = some 1002
    ∧ (((∃ o n, parse_opcode 1002 = .ok (o, n)) ↔
          (1002 : Int).tmod 100 ∈ ([1, 2, 3, 4, 5, 6, 7, 8, 9, 99] : List Int))
        ∧ (∀ e, parse_opcode 1002 = .error e → e = .err "Unexpected opcode")
        ∧ (∀ ins p₂, parse_instruction (fresh [1002, 4, 3, 4, 33]) = .ok (ins, p₂) →
            ∀ i par, ins.parameters.get? i = some par →
              par.mode = modeOf (((Nat.digits 10 ((1002 : Int).toNat / 100)).get? i).getD 0))
        ∧ (∀ o n ps rest, parse_opcode 1002 = .ok (o, n) → n ≤ ps.length →
            exec_instruction (fresh [1002, 4, 3, 4, 33]) { opcode := o, parameters := ps ++ rest }
              = exec_instruction (fresh [1002, 4, 3, 4, 33]) { opcode := o, parameters := ps })) :=
  ⟨rfl, C1_decoding (fresh [1002, 4, 3, 4, 33]) 1002 rfl⟩

/-- C1 counterexample: mode digits beyond the arity are not ignored.
The word 101101 decodes to opcode 1 (arity 3) with one extra mode digit;
on the four-cell memory `[101101, 1, 1, 0]` decoding panics (the fourth
parameter word does not exist), while the same instruction without the
extra digit, `[1101, 1, 1, 0]`, decodes fine. -/
theorem C1_counterexample :
    parse_opcode 101101 = .ok (.Arithmetic .Add, 3)
    ∧ parse_instruction (fresh [101101, 1, 1, 0]) = .error .panic
    ∧ parse_instruction (fresh [1101, 1, 1, 0])
        = .ok ({ opcode := .Arithmetic .Add,
                 parameters := [{ data := 1, mode := .Immediate },
                                { data := 1, mode := .Immediate },
                                { data := 0, mode := .Position }] },
               { memory := [1101, 1, 1, 0], pointer := 4, relative_base := 0,
                 input_source := no_input, input_count := 0, output := [],
                 running := false }) :=
  ⟨rfl, rfl, rfl⟩

/-! ## C8 -/

/-- C8 (amended): before executing, the decoder does read one raw word
per (padded) mode digit immediately after the instruction pointer — but
it reads them by direct indexing, not through the zero-defaulting `get`:
when every required word lies inside memory, decoding succeeds and the
parameters' data are exactly those words; when any required word lies at
or past the end of memory, decoding panics instead of reading zero.
(`decimal_digits` is `Nat.digits 10`, by `decimal_digits_eq`.) -/
theorem C8_parameter_words (p : Program) (w : Int) (o : OpCode) (n : Nat)
    (hw : current p = some w) (ho : parse_opcode w = .ok (o, n)) :
    ((∀ j, j < (pad_using ((decimal_digits w.toNat).drop 2) n).length →
        p.pointer + 1 + j < p.memory.length) →
      ∃ ins p', parse_instruction p = .ok (ins, p')
        ∧ ins.parameters.length = (pad_using ((decimal_digits w.toNat).drop 2) n).length
        ∧ (∀ j par, ins.parameters.get? j = some par →
            p.memory.get? (p.pointer + 1 + j) = some par.data))
    ∧ ((∃ j, j < (pad_using ((decimal_digits w.toNat).drop 2) n).length
          ∧ p.memory.length ≤ p.pointer + 1 + j) →
      parse_instruction p = .error .panic) := by
  constructor
  · intro hin
    obtain ⟨ps, hps⟩ := parse_params_ok p (pad_using ((decimal_digits w.toNat).drop 2) n) 0
      (fun j hj => by
        have hlt : p.pointer + (0 + j + 1) < p.memory.length := by
          have := hin j hj
          omega
        exact ⟨p.memory.get ⟨p.pointer + (0 + j + 1), hlt⟩, List.get?_eq_get hlt⟩)
    obtain ⟨hlen, hmodes⟩ := parse_params_modes p _ _ _ hps
    refine ⟨{ opcode := o, parameters := ps }, { p with pointer := p.pointer + n + 1 },
      ?_, hlen, ?_⟩
    · rw [parse_instruction_eq p w o n hw ho, hps]
    · intro j par hj
      obtain ⟨-, hd⟩ := hmodes j par hj
      have : p.pointer + (0 + j + 1) = p.pointer + 1 + j := by omega
      unfold offset at hd
      rw [this] at hd
      exact hd
  · rintro ⟨j, hj, hout⟩
    rw [parse_instruction_eq p w o n hw ho,
      parse_params_panic p _ 0 ⟨j, hj, ?_⟩]
    unfold offset
    rw [List.get?_eq_none.2 (by omega)]

/-- Witness for C8 at the concrete program `1002,4,3,4,33`: all three
parameter words of the multiply instruction are in range, so decoding
succeeds and reads them. -/
theorem C8_parameter_words_witness :
    current (fresh [1002, 4, 3, 4, 33]) = some 1002
    ∧ parse_opcode 1002 = .ok (.Arithmetic .Multiply, 3)
    ∧ ((∀ j, j < (pad_using ((decimal_digits (1002 : Int).toNat).drop 2) 3).length →
          (fresh [1002, 4, 3, 4, 33]).pointer + 1 + j
            < (fresh [1002, 4, 3, 4, 33]).memory.length) →
        ∃ ins p', parse_instruction (fresh [1002, 4, 3, 4, 33]) = .ok (ins, p')
          ∧ ins.parameters.length
              = (pad_using ((decimal_digits (1002 : Int).toNat).drop 2) 3).length
          ∧ (∀ j par, ins.parameters.get? j = some par →
              (fresh [1002, 4, 3, 4, 33]).memory.get?
                ((fresh [1002, 4, 3, 4, 33]).pointer + 1 + j) = some par.data)) :=
  ⟨rfl, rfl, (C8_parameter_words (fresh [1002, 4, 3, 4, 33]) 1002 (.Arithmetic .Multiply) 3
    rfl rfl).1⟩

/-- C8 counterexample: the one-cell program `[4]` holds the valid
output opcode 4, whose single parameter word lies past the end of
memory; decoding panics instead of reading that word as zero. -/
theorem C8_counterexample :
    current (fresh [4]) = some 4
    ∧ parse_opcode 4 = .ok (.Output, 1)
    ∧ parse_instruction (fresh [4]) = .error .panic :=
  ⟨rfl, rfl, rfl⟩

/-! ## Execution lemmas -/

/-- `set` only touches the memory. -/
@[simp] theorem running_set (p : Program) (a : Nat) (v : Int) :
    (set p a v).running = p.running := by
  unfold set
  split <;> rfl

/-- `set` only touches the memory. -/
@[simp] theorem output_set (p : Program) (a : Nat) (v : Int) :
    (set p a v).output = p.output := by
  unfold set
  split <;> rfl

/-- `set` only touches the memory. -/
@[simp] theorem pointer_set (p : Program) (a : Nat) (v : Int) :
    (set p a v).pointer = p.pointer := by
  unfold set
  split <;> rfl

/-- `set` only touches the memory. -/
@[simp] theorem input_count_set (p : Program) (a : Nat) (v : Int) :
    (set p a v).input_count = p.input_count := by
  unfold set
  split <;> rfl

/-- A successful decode only advances the pointer: every other field of
the state is unchanged, and the advance is `parameters_count + 1`. -/
theorem parse_instruction_fields (p : Program) (ins : Instruction) (p' : Program)
    (h : parse_instruction p = .ok (ins, p')) :
    p'.memory = p.memory ∧ p'.relative_base = p.relative_base
    ∧ p'.input_source = p.input_source ∧ p'.input_count = p.input_count
    ∧ p'.output = p.output ∧ p'.running = p.running
    ∧ (∀ w o n, current p = some w → parse_opcode w = .ok (o, n) →
        p'.pointer = p.pointer + n + 1) := by
  cases hw : current p with
  | none =>
    unfold parse_instruction at h
    rw [hw] at h
    cases h
  | some w =>
    cases ho : parse_opcode w with
    | error e => rw [parse_instruction_err p w e hw ho] at h; cases h
    | ok res =>
      obtain ⟨o, n⟩ := res
      rw [parse_instruction_eq p w o n hw ho] at h
      cases hps : parse_params p (pad_using ((decimal_digits w.toNat).drop 2) n) 0 with
      | error e => rw [hps] at h; cases h
      | ok ps =>
        rw [hps] at h
        cases h
        refine ⟨rfl, rfl, rfl, rfl, rfl, rfl, ?_⟩
        intro w' o' n' hw' ho'
        have hww : w' = w := (Option.some.inj hw').symm
        subst hww
        rw [ho] at ho'
        have hnn : n' = n := by
          injection ho' with hpair
          injection hpair with h1 h2
          exact h2.symm
        subst hnn
        rfl

/-- Executing one decoded instruction never touches `running`, and
appends at most one output value (exactly one when the instruction is an
output, in which case the step reports `Ok(true)`). -/
theorem exec_instruction_effects (p : Program) (ins : Instruction)
    (r : Except VMError Bool) (p' : Program) (h : exec_instruction p ins = (r, p')) :
    p'.running = p.running
    ∧ (p'.output = p.output ∨ ∃ v, p'.output = p.output ++ [v] ∧ r = .ok true) := by
  obtain ⟨o, ps⟩ := ins
  cases o <;>
    simp only [exec_instruction, request_input] at h <;>
    repeat' split at h
  all_goals injection h with h1 h2
  all_goals subst h2
  all_goals cases h1
  all_goals refine ⟨by first | rfl | simp, ?_⟩
  all_goals try exact .inl rfl
  all_goals try exact .inr ⟨_, rfl, rfl⟩
  all_goals try exact .inl (by simp)

/-- `forward` never touches `running`, and appends at most one output
value per step (exactly one when it reports `Ok(true)` from an output
instruction). -/
theorem forward_effects (p : Program) (r : Except VMError Bool) (p' : Program)
    (h : forward p = (r, p')) :
    p'.running = p.running
    ∧ (p'.output = p.output ∨ ∃ v, p'.output = p.output ++ [v] ∧ r = .ok true) := by
  unfold forward at h
  cases hpi : parse_instruction p with
  | error e =>
    rw [hpi] at h
    injection h with h1 h2
    subst h2
    exact ⟨rfl, .inl rfl⟩
  | ok insp =>
    obtain ⟨ins, pd⟩ := insp
    rw [hpi] at h
    obtain ⟨-, -, -, -, houtd, hrund, -⟩ := parse_instruction_fields p ins pd hpi
    obtain ⟨hrun, hout⟩ := exec_instruction_effects pd ins r p' h
    refine ⟨hrun.trans hrund, ?_⟩
    rcases hout with hsame | ⟨v, hv, hr⟩
    · exact .inl (hsame.trans houtd)
    · exact .inr ⟨v, by rw [hv, houtd], hr⟩

/-- One unfolding of the execution loop. -/
theorem execute_loop_succ (f : Nat) (b : Bool) (q : Program) :
    execute_loop (f + 1) b q =
      match forward q with
      | (.error e, p') => .error e p'
      | (.ok false, p') => .ok p'.output { p' with running := false }
      | (.ok true, p') =>
        if p'.output.length > q.output.length ∧ b then .ok p'.output p'
        else execute_loop f b p' := rfl

/-- Loop step on a failing `forward`. -/
theorem execute_loop_succ_err (f : Nat) (b : Bool) (q : Program) (e : VMError)
    (p' : Program) (hf : forward q = (.error e, p')) :
    execute_loop (f + 1) b q = .error e p' := by
  rw [execute_loop_succ, hf]

/-- Loop step on a halting `forward`. -/
theorem execute_loop_succ_halt (f : Nat) (b : Bool) (q : Program)
    (p' : Program) (hf : forward q = (.ok false, p')) :
    execute_loop (f + 1) b q = .ok p'.output { p' with running := false } := by
  rw [execute_loop_succ, hf]

/-- Loop step on a continuing `forward`. -/
theorem execute_loop_succ_step (f : Nat) (b : Bool) (q : Program)
    (p' : Program) (hf : forward q = (.ok true, p')) :
    execute_loop (f + 1) b q =
      if p'.output.length > q.output.length ∧ b then .ok p'.output p'
      else execute_loop f b p' := by
  rw [execute_loop_succ, hf]

/-- Setting `running` on an already-running state is the identity. -/
theorem update_running_eta (q : Program) (h : q.running = true) :
    ({ q with running := true } : Program) = q := by
  cases q with
  | mk mem pt rb src ic out run =>
    have : run = true := h
    subst this
    rfl

/-- On a running state, `execute0` is just the loop. -/
theorem execute0_running (f : Nat) (b : Bool) (q : Program) (h : q.running = true) :
    execute0 f b q = execute_loop f b q := by
  unfold execute0 start_state
  rw [if_neg (by simp [h]), update_running_eta q h]

/-- On a non-running state, `execute0` resets the pointer and loops. -/
theorem execute0_fresh (f : Nat) (b : Bool) (q : Program) (h : q.running = false) :
    execute0 f b q = execute_loop f b { q with pointer := 0, running := true } := by
  unfold execute0 start_state
  rw [if_pos h]

/-- More fuel does not change a loop outcome that is not a timeout. -/
theorem execute_loop_mono (f₁ : Nat) :
    ∀ (f₂ : Nat) (b : Bool) (q : Program) (r : ExecResult), f₁ ≤ f₂ →
      execute_loop f₁ b q = r → (∀ qt, r ≠ .timeout qt) → execute_loop f₂ b q = r := by
  induction f₁ with
  | zero =>
    intro f₂ b q r _ hr hnt
    exact absurd hr.symm (hnt q)
  | succ f ih =>
    intro f₂ b q r hle hr hnt
    obtain ⟨f₂', rfl⟩ : ∃ k, f₂ = k + 1 := ⟨f₂ - 1, by omega⟩
    rcases hfq : forward q with ⟨re, pe⟩
    cases re with
    | error e =>
      rw [execute_loop_succ_err f b q e pe hfq] at hr
      rw [execute_loop_succ_err f₂' b q e pe hfq]
      exact hr
    | ok bb =>
      cases bb with
      | false =>
        rw [execute_loop_succ_halt f b q pe hfq] at hr
        rw [execute_loop_succ_halt f₂' b q pe hfq]
        exact hr
      | true =>
        rw [execute_loop_succ_step f b q pe hfq] at hr
        rw [execute_loop_succ_step f₂' b q pe hfq]
        by_cases hc : pe.output.length > q.output.length ∧ b = true
        · rw [if_pos hc] at hr ⊢
          exact hr
        · rw [if_neg hc] at hr ⊢
          exact ih f₂' b pe r (by omega) hr hnt

/-- When the `until_next_output` loop pauses (the final state is still
running), the full-run loop passes through the paused state with some
fuel to spare, the paused state's output log is the returned log, and
that log is the entry log extended by exactly one value. -/
theorem pause_pass (f : Nat) :
    ∀ q outs₁ q₁, q.running = true → execute_loop f true q = .ok outs₁ q₁ →
      q₁.running = true →
      (∃ f', f' < f ∧ execute_loop f false q = execute_loop f' false q₁)
      ∧ q₁.output = outs₁ ∧ ∃ v, outs₁ = q.output ++ [v] := by
  induction f with
  | zero => intro q o1 q1 _ h _; cases h
  | succ f ih =>
    intro q outs₁ q₁ hqrun h hq₁run
    rcases hfq : forward q with ⟨re, pe⟩
    obtain ⟨hrunpe, houtpe⟩ := forward_effects q re pe hfq
    cases re with
    | error e =>
      rw [execute_loop_succ_err f true q e pe hfq] at h
      cases h
    | ok bb =>
      cases bb with
      | false =>
        rw [execute_loop_succ_halt f true q pe hfq] at h
        cases h
        simp at hq₁run
      | true =>
        rw [execute_loop_succ_step f true q pe hfq] at h
        by_cases hc : pe.output.length > q.output.length ∧ true = true
        · rw [if_pos hc] at h
          cases h
          refine ⟨⟨f, by omega, ?_⟩, rfl, ?_⟩
          · rw [execute_loop_succ_step f false q q₁ hfq, if_neg (by simp)]
          · rcases houtpe with hsame | ⟨v, hv, -⟩
            · exact absurd hc.1 (by rw [hsame]; omega)
            · exact ⟨v, hv⟩
        · rw [if_neg hc] at h
          have hperun : pe.running = true := hrunpe.trans hqrun
          obtain ⟨⟨f', hf', heq⟩, hout, v, hv⟩ := ih pe outs₁ q₁ hperun h hq₁run
          have hpe_out : pe.output = q.output := by
            rcases houtpe with hsame | ⟨v', hv', -⟩
            · exact hsame
            · exact absurd ⟨by rw [hv']; simp, rfl⟩ hc
          refine ⟨⟨f', by omega, ?_⟩, hout, ?_⟩
          · rw [execute_loop_succ_step f false q pe hfq, if_neg (by simp)]
            exact heq
          · exact ⟨v, by rw [hv, hpe_out]⟩

/-- When the `until_next_output` loop runs to the halt instruction (the
final state is no longer running), the full-run loop does exactly the
same thing, and no output was produced during the call. -/
theorem halt_pass (f : Nat) :
    ∀ q outs₁ q₁, q.running = true → execute_loop f true q = .ok outs₁ q₁ →
      q₁.running = false →
      execute_loop f false q = .ok outs₁ q₁ ∧ outs₁ = q.output := by
  induction f with
  | zero => intro q o1 q1 _ h _; cases h
  | succ f ih =>
    intro q outs₁ q₁ hqrun h hq₁run
    rcases hfq : forward q with ⟨re, pe⟩
    obtain ⟨hrunpe, houtpe⟩ := forward_effects q re pe hfq
    cases re with
    | error e =>
      rw [execute_loop_succ_err f true q e pe hfq] at h
      cases h
    | ok bb =>
      cases bb with
      | false =>
        rw [execute_loop_succ_halt f true q pe hfq] at h
        cases h
        refine ⟨?_, ?_⟩
        · rw [execute_loop_succ_halt f false q pe hfq]
        · rcases houtpe with hsame | ⟨v, hv, hr⟩
          · exact hsame
          · simp at hr
      | true =>
        rw [execute_loop_succ_step f true q pe hfq] at h
        by_cases hc : pe.output.length > q.output.length ∧ true = true
        · rw [if_pos hc] at h
          cases h
          rw [hrunpe, hqrun] at hq₁run
          simp at hq₁run
        · rw [if_neg hc] at h
          have hperun : pe.running = true := hrunpe.trans hqrun
          have hpe_out : pe.output = q.output := by
            rcases houtpe with hsame | ⟨v', hv', -⟩
            · exact hsame
            · exact absurd ⟨by rw [hv']; simp, rfl⟩ hc
          obtain ⟨heq, hout⟩ := ih pe outs₁ q₁ hperun h hq₁run
          refine ⟨?_, hout.trans hpe_out⟩
          rw [execute_loop_succ_step f false q pe hfq, if_neg (by simp)]
          exact heq

/-- When the `until_next_output` loop fails or times out, the full-run
loop does exactly the same thing. -/
theorem err_timeout_pass (f : Nat) :
    ∀ q, q.running = true →
      (∀ e qe, execute_loop f true q = .error e qe → execute_loop f false q = .error e qe)
      ∧ (∀ qt, execute_loop f true q = .timeout qt → execute_loop f false q = .timeout qt) := by
  induction f with
  | zero =>
    intro q _
    refine ⟨?_, ?_⟩
    · intro e qe h; cases h
    · intro qt h; cases h; rfl
  | succ f ih =>
    intro q hqrun
    rcases hfq : forward q with ⟨re, pe⟩
    obtain ⟨hrunpe, houtpe⟩ := forward_effects q re pe hfq
    cases re with
    | error e0 =>
      refine ⟨?_, ?_⟩
      · intro e qe h
        rw [execute_loop_succ_err f true q e0 pe hfq] at h
        rw [execute_loop_succ_err f false q e0 pe hfq]
        exact h
      · intro qt h
        rw [execute_loop_succ_err f true q e0 pe hfq] at h
        cases h
    | ok bb =>
      cases bb with
      | false =>
        refine ⟨?_, ?_⟩
        · intro e qe h
          rw [execute_loop_succ_halt f true q pe hfq] at h
          cases h
        · intro qt h
          rw [execute_loop_succ_halt f true q pe hfq] at h
          cases h
      | true =>
        by_cases hc : pe.output.length > q.output.length ∧ true = true
        · refine ⟨?_, ?_⟩
          · intro e qe h
            rw [execute_loop_succ_step f true q pe hfq, if_pos hc] at h
            cases h
          · intro qt h
            rw [execute_loop_succ_step f true q pe hfq, if_pos hc] at h
            cases h
        · have hperun : pe.running = true := hrunpe.trans hqrun
          refine ⟨?_, ?_⟩
          · intro e qe h
            rw [execute_loop_succ_step f true q pe hfq, if_neg hc] at h
            rw [execute_loop_succ_step f false q pe hfq, if_neg (by simp)]
            exact (ih pe hperun).1 e qe h
          · intro qt h
            rw [execute_loop_succ_step f true q pe hfq, if_neg hc] at h
            rw [execute_loop_succ_step f false q pe hfq, if_neg (by simp)]
            exact (ih pe hperun).2 qt h

/-- On a running state, `execute_until_next_output` wraps the loop
result through `finalResultOf`. -/
theorem euno_of_loop (f : Nat) (q : Program) (outs₁ : List Int) (q₁ : Program)
    (hqrun : q.running = true) (h : execute_loop f true q = .ok outs₁ q₁) :
    execute_until_next_output f q = finalResultOf outs₁ q₁ := by
  unfold execute_until_next_output finalResultOf
  rw [execute0_running f true q hqrun, h]

/-- On a running state, a failing loop makes
`execute_until_next_output` fail the same way. -/
theorem euno_of_loop_err (f : Nat) (q : Program) (e : VMError) (qe : Program)
    (hqrun : q.running = true) (h : execute_loop f true q = .error e qe) :
    execute_until_next_output f q = .error e qe := by
  unfold execute_until_next_output
  rw [execute0_running f true q hqrun, h]

/-- On a non-running state, `execute_until_next_output` behaves as on
the pointer-reset running state. -/
theorem euno_fresh (f : Nat) (q : Program) (h : q.running = false) :
    execute_until_next_output f q
      = execute_until_next_output f { q with pointer := 0, running := true } := by
  unfold execute_until_next_output
  rw [execute0_fresh f true q h, execute0_running f true _ rfl]

/-- `pump` step when the call pauses with a value. -/
theorem pump_succ_ok_running (f n : Nat) (q : Program) (v : Int) (q₁ : Program)
    (hcall : execute_until_next_output f q = .ok v q₁) (hq₁ : q₁.running = true) :
    pump f (n + 1) q =
      match pump f n q₁ with
      | some (vs, r) => some (v :: vs, r)
      | none => none := by
  simp only [pump, hcall]
  rw [if_pos hq₁]

/-- `pump` step when the call returns a value with the machine stopped. -/
theorem pump_succ_ok_stopped (f n : Nat) (q : Program) (v : Int) (q₁ : Program)
    (hcall : execute_until_next_output f q = .ok v q₁) (hq₁ : q₁.running = false) :
    pump f (n + 1) q = some ([], .ok v q₁) := by
  simp only [pump, hcall]
  rw [if_neg (by simp [hq₁])]

/-- `pump` step when the call reports an error. -/
theorem pump_succ_error (f n : Nat) (q : Program) (e : VMError) (q₁ : Program)
    (hcall : execute_until_next_output f q = .error e q₁) :
    pump f (n + 1) q = some ([], .error e q₁) := by
  simp only [pump, hcall]

/-- Pumping a non-running state is pumping the pointer-reset running
state. -/
theorem pump_fresh (f : Nat) (q : Program) (h : q.running = false) :
    ∀ n, pump f n q = pump f n { q with pointer := 0, running := true } := by
  intro n
  cases n with
  | zero => rfl
  | succ n =>
    simp only [pump]
    rw [euno_fresh f q h]

/-- The heart of the pause/resume equivalence: if the full run from a
running state succeeds with log `outs` and final state `qf`, then the
driver loop collects, from the calls that leave the machine running,
exactly the outputs produced after that state, and its final call
returns `finalResultOf outs qf` — the last value of the whole log (or
the no-output error when the log is empty). -/
theorem pump_complete (f : Nat) :
    ∀ f', f' ≤ f → ∀ q outs qf, q.running = true →
      execute_loop f' false q = .ok outs qf →
      ∃ n vs, pump f n q = some (vs, finalResultOf outs qf) ∧ q.output ++ vs = outs := by
  intro f'
  induction f' using Nat.strong_induction_on with
  | _ f' ih =>
    intro hf'le q outs qf hqrun hrun
    cases htrue : execute_loop f' true q with
    | timeout qt =>
      rw [(err_timeout_pass f' q hqrun).2 qt htrue] at hrun
      cases hrun
    | error e qe =>
      rw [(err_timeout_pass f' q hqrun).1 e qe htrue] at hrun
      cases hrun
    | ok outs₁ q₁ =>
      cases hq₁ : q₁.running with
      | false =>
        obtain ⟨heq, houts⟩ := halt_pass f' q outs₁ q₁ hqrun htrue hq₁
        rw [heq] at hrun
        cases hrun
        have hloopf : execute_loop f true q = .ok outs qf :=
          execute_loop_mono f' f true q _ hf'le htrue (by intro qt hqt; cases hqt)
        have hcall : execute_until_next_output f q = finalResultOf outs qf :=
          euno_of_loop f q outs qf hqrun hloopf
        refine ⟨1, [], ?_, by rw [houts]; simp⟩
        unfold finalResultOf at hcall ⊢
        cases hlast : outs.getLast? with
        | some v =>
          rw [hlast] at hcall
          exact pump_succ_ok_stopped f 0 q v qf hcall hq₁
        | none =>
          rw [hlast] at hcall
          exact pump_succ_error f 0 q _ qf hcall
      | true =>
        obtain ⟨⟨f'', hf'', heq⟩, houtq₁, v, hv⟩ := pause_pass f' q outs₁ q₁ hqrun htrue hq₁
        rw [heq] at hrun
        have hloopf : execute_loop f true q = .ok outs₁ q₁ :=
          execute_loop_mono f' f true q _ hf'le htrue (by intro qt hqt; cases hqt)
        have hcall : execute_until_next_output f q = .ok v q₁ := by
          have h1 := euno_of_loop f q outs₁ q₁ hqrun hloopf
          unfold finalResultOf at h1
          rw [hv] at h1
          simpa using h1
        obtain ⟨n, vs, hpump, hcat⟩ :=
          ih f'' hf'' (by omega) q₁ outs qf hq₁ hrun
        refine ⟨n + 1, v :: vs, ?_, ?_⟩
        · rw [pump_succ_ok_running f n q v q₁ hcall hq₁, hpump]
        · rw [houtq₁, hv] at hcat
          rw [← hcat]
          simp

/-! ## C2 -/

/-- C2 (amended): for a fresh instance whose `run_to_completion`
succeeds with Output Log `outs`, the driver loop that repeatedly calls
`run_to_next_output` until `is_running()` is false collects exactly
`outs` from the calls that leave the machine running — but the *final*
call does not report `NoOutputProduced` when `outs` is non-empty: it
returns the last element of `outs` once more (`finalResultOf`), so the
concatenation of *all* returned values has that last value duplicated
(see the counterexample).  Determinism is inherent in the embedding:
the input source is a fixed function carried by the state. -/
theorem C2_pause_resume (f : Nat) (p₀ : Program) (outs : List Int) (qf : Program)
    (hfresh_run : p₀.running = false) (hfresh_out : p₀.output = [])
    (hrun : execute f p₀ = .ok outs qf) :
    ∃ n vs, pump f n p₀ = some (vs, finalResultOf outs qf) ∧ vs = outs := by
  have hrun' : execute_loop f false { p₀ with pointer := 0, running := true }
      = .ok outs qf := by
    unfold execute at hrun
    rw [execute0_fresh f false p₀ hfresh_run] at hrun
    exact hrun
  obtain ⟨n, vs, hp, hout⟩ :=
    pump_complete f f le_rfl { p₀ with pointer := 0, running := true } outs qf rfl hrun'
  refine ⟨n, vs, ?_, ?_⟩
  · rw [pump_fresh f p₀ hfresh_run n]
    exact hp
  · have h0 : ({ p₀ with pointer := 0, running := true } : Program).output = p₀.output := rfl
    rw [h0, hfresh_out] at hout
    simpa using hout

/-- C2 counterexample: for `104,7,99`, `run_to_completion` returns
`[7]`, but the values returned by repeatedly calling
`run_to_next_output` until `is_running()` is false concatenate to
`[7, 7]` — the final, halting call returns the old output 7 again
instead of reporting `NoOutputProduced`. -/
theorem C2_counterexample :
    execOuts (execute 10 (fresh [104, 7, 99])) = some [7]
    ∧ pump_all 10 3 (fresh [104, 7, 99]) = some [7, 7]
    ∧ ([7, 7] : List Int) ≠ [7] :=
  ⟨by decide, by decide, by decide⟩

/-- Witness for C2 on the concrete program `104,7,99`. -/
theorem C2_pause_resume_witness :
    (fresh [104, 7, 99]).running = false
    ∧ (fresh [104, 7, 99]).output = []
    ∧ execute 10 (fresh [104, 7, 99]) = .ok [7] prog104_final
    ∧ ∃ n vs, pump 10 n (fresh [104, 7, 99]) = some (vs, finalResultOf [7] prog104_final)
        ∧ vs = [7] :=
  ⟨rfl, rfl, rfl, C2_pause_resume 10 (fresh [104, 7, 99]) [7] prog104_final rfl rfl rfl⟩

/-! ## C4 -/

/-- A pausing `run_to_next_output` call returns exactly the one value it
appended during this call. -/
theorem euno_pause (f : Nat) (q : Program) (hqrun : q.running = true) (v : Int)
    (q₁ : Program) (h : execute_until_next_output f q = .ok v q₁)
    (hq₁ : q₁.running = true) :
    q₁.output = q.output ++ [v] := by
  unfold execute_until_next_output at h
  rw [execute0_running f true q hqrun] at h
  cases hloop : execute_loop f true q with
  | timeout qt => rw [hloop] at h; cases h
  | error e qe => rw [hloop] at h; cases h
  | ok outs₁ qq =>
    rw [hloop] at h
    have h' : (match outs₁.getLast? with
        | some v0 => NextOutputResult.ok v0 qq
        | none => NextOutputResult.error (VMError.err "No output") qq)
        = NextOutputResult.ok v q₁ := h
    clear h
    cases hlast : outs₁.getLast? with
    | none => rw [hlast] at h'; cases h'
    | some v' =>
      rw [hlast] at h'
      injection h' with h1 h2
      subst h1
      subst h2
      obtain ⟨-, houtq₁, v'', hv''⟩ := pause_pass f q outs₁ qq hqrun hloop hq₁
      rw [hv''] at hlast
      simp only [List.getLast?_concat, Option.some.injEq] at hlast
      rw [houtq₁, hv'', hlast]

/-- A halting `run_to_next_output` call produced no new output; the call
returns the last element of the *old* log (or the no-output error when
the old log is empty). -/
theorem euno_halt (f : Nat) (q : Program) (hqrun : q.running = true) (outs : List Int)
    (q₁ : Program) (h : execute0 f true q = .ok outs q₁) (hq₁ : q₁.running = false) :
    outs = q.output ∧ execute_until_next_output f q = finalResultOf q.output q₁ := by
  rw [execute0_running f true q hqrun] at h
  obtain ⟨-, houts⟩ := halt_pass f q outs q₁ hqrun h hq₁
  refine ⟨houts, ?_⟩
  have h2 := euno_of_loop f q outs q₁ hqrun h
  rw [h2, houts]

/-- C4 (amended): when a `run_to_next_output` call pauses (the machine
is still running), the returned value is exactly the single output
appended during this call.  But when the program halts during the call,
the call returns the last element of the *entire* Output Log — the last
output of an *earlier* call — and reports `NoOutputProduced` only when
the whole log is empty (`finalResultOf`), not merely when this call
produced nothing. -/
theorem C4_next_output_value (f : Nat) (p : Program) :
    (∀ v q, execute_until_next_output f p = .ok v q → q.running = true →
      q.output = p.output ++ [v])
    ∧ (∀ outs q, execute0 f true p = .ok outs q → q.running = false →
        outs = p.output ∧ execute_until_next_output f p = finalResultOf p.output q) := by
  cases hrun : p.running with
  | true =>
    exact ⟨fun v q h hq => euno_pause f p hrun v q h hq,
           fun outs q h hq => euno_halt f p hrun outs q h hq⟩
  | false =>
    refine ⟨?_, ?_⟩
    · intro v q h hq
      rw [euno_fresh f p hrun] at h
      exact euno_pause f { p with pointer := 0, running := true } rfl v q h hq
    · intro outs q h hq
      rw [execute0_fresh f true p hrun] at h
      have h' : execute0 f true { p with pointer := 0, running := true } = .ok outs q := by
        rw [execute0_running f true _ rfl]
        exact h
      obtain ⟨h1, h2⟩ := euno_halt f { p with pointer := 0, running := true } rfl outs q h' hq
      refine ⟨h1, ?_⟩
      rw [euno_fresh f p hrun]
      exact h2

/-- C4 counterexample: after `104,7,99` pauses with output 7, the next
call halts without producing anything new — yet it returns the value 7
again (the log's last element) instead of reporting the
`NoOutputProduced` condition. -/
theorem C4_counterexample :
    execute_until_next_output 10 (fresh [104, 7, 99]) = .ok 7 prog104_paused
    ∧ execute_until_next_output 10 prog104_paused = .ok 7 prog104_final
    ∧ prog104_final.running = false
    ∧ prog104_paused.output = [7] :=
  ⟨rfl, rfl, rfl, rfl⟩

/-- Witness for C4 on the pausing first call of `104,7,99`. -/
theorem C4_next_output_value_witness :
    execute_until_next_output 10 (fresh [104, 7, 99]) = .ok 7 prog104_paused
    ∧ prog104_paused.running = true
    ∧ prog104_paused.output = (fresh [104, 7, 99]).output ++ [7] :=
  ⟨rfl, rfl, (C4_next_output_value 10 (fresh [104, 7, 99])).1 7 prog104_paused rfl rfl⟩

/-! ## C3 -/

/-- C3 (amended): a `run_to_next_output` call on a Halted VM is *not* an
idempotent no-op: because `running` is false, the instruction pointer is
reset to 0 (the stored pointer value is irrelevant, first conjunct) and
the program re-executes from the start on the current, already-mutated
memory.  Concretely, after `1,0,0,0,99` halts (memory `[2,0,0,0,99]`),
one more call re-runs it, mutating memory to `[4,0,0,0,99]`; the call
happens to report the no-output condition, but only because the re-run
produced no output. -/
theorem C3_halted_resume :
    (∀ (f : Nat) (p : Program) (n : Nat), p.running = false →
      execute_until_next_output f p = execute_until_next_output f { p with pointer := n })
    ∧ (execProg (execute 10 (fresh [1, 0, 0, 0, 99]))).memory = [2, 0, 0, 0, 99]
    ∧ (execProg (execute 10 (fresh [1, 0, 0, 0, 99]))).running = false
    ∧ nextOutErr (execute_until_next_output 10
        (execProg (execute 10 (fresh [1, 0, 0, 0, 99])))) = some (.err "No output")
    ∧ (nextOutProg (execute_until_next_output 10
        (execProg (execute 10 (fresh [1, 0, 0, 0, 99]))))).memory = [4, 0, 0, 0, 99] := by
  refine ⟨?_, by decide, by decide, by decide, by decide⟩
  intro f p n hp
  rw [euno_fresh f p hp,
    euno_fresh f { p with pointer := n }
      (show ({ p with pointer := n } : Program).running = false from hp)]

/-- C3 counterexample: `4,0,99` halts with Output Log `[4]`; calling
`run_to_next_output` on the Halted VM returns the value 4 (not the
`NoOutputProduced` condition) and mutates the Output Log to `[4, 4]`:
the pointer was reset and the output instruction executed again. -/
theorem C3_counterexample :
    execOuts (execute 10 (fresh [4, 0, 99])) = some [4]
    ∧ (execProg (execute 10 (fresh [4, 0, 99]))).running = false
    ∧ nextOutValue (execute_until_next_output 10 (execProg (execute 10 (fresh [4, 0, 99]))))
        = some 4
    ∧ (nextOutProg (execute_until_next_output 10
        (execProg (execute 10 (fresh [4, 0, 99]))))).output = [4, 4] :=
  ⟨by decide, by decide, by decide, by decide⟩

/-- Witness for C3 on the halted one-instruction program `99`. -/
theorem C3_halted_resume_witness :
    (fresh [99]).running = false
    ∧ execute_until_next_output 10 (fresh [99])
        = execute_until_next_output 10 { fresh [99] with pointer := 5 } :=
  ⟨rfl, C3_halted_resume.1 10 (fresh [99]) 5 rfl⟩

/-! ## C9 -/

/-- A failing `exec_instruction` leaves the decoded state as it was,
except that a failed input request has still consumed its input ordinal. -/
theorem exec_instruction_err_state (p : Program) (ins : Instruction) (e : VMError)
    (p' : Program) (h : exec_instruction p ins = (.error e, p')) :
    p' = p ∨ p' = { p with input_count := p.input_count + 1 } := by
  obtain ⟨o, ps⟩ := ins
  cases o <;>
    simp only [exec_instruction, request_input] at h <;>
    repeat' split at h
  all_goals injection h with h1 h2
  all_goals subst h2
  all_goals try (cases h1)
  all_goals first
    | exact .inl rfl
    | exact .inr rfl

/-- C9: failures do not roll back state mutations.  A successful decode
advances the pointer by `arity + 1` while leaving memory, input cursor
and output untouched; when execution of the decoded instruction then
fails, the state keeps that advanced pointer (no transactional
restore); and when the input callback fails, the input cursor has still
been incremented, the failure propagating with that mutated state. -/
theorem C9_no_rollback (p : Program) :
    (∀ w o n ins p', current p = some w → parse_opcode w = .ok (o, n) →
        parse_instruction p = .ok (ins, p') →
        p'.pointer = p.pointer + n + 1 ∧ p'.memory = p.memory
          ∧ p'.input_count = p.input_count ∧ p'.output = p.output)
    ∧ (∀ ins pd e p', parse_instruction p = .ok (ins, pd) →
        forward p = (.error e, p') → p'.pointer = pd.pointer)
    ∧ (∀ ins pd addr e, parse_instruction p = .ok (ins, pd) →
        ins.opcode = .Input → ins.parameters.get? 0 = some addr →
        pd.input_source pd.input_count = .error e →
        forward p = (.error e, { pd with input_count := pd.input_count + 1 })) := by
  refine ⟨?_, ?_, ?_⟩
  · intro w o n ins p' hw ho hpi
    obtain ⟨hmem, -, -, hic, hout, -, hptr⟩ := parse_instruction_fields p ins p' hpi
    exact ⟨hptr w o n hw ho, hmem, hic, hout⟩
  · intro ins pd e p' hpi hfwd
    unfold forward at hfwd
    rw [hpi] at hfwd
    rcases exec_instruction_err_state pd ins e p' hfwd with rfl | rfl
    · rfl
    · rfl
  · intro ins pd addr e hpi hop haddr hin
    unfold forward
    rw [hpi]
    obtain ⟨o, ps⟩ := ins
    have ho : o = .Input := hop
    subst ho
    simp only [exec_instruction, request_input]
    rw [show ps.get? 0 = some addr from haddr,
      show pd.input_source pd.input_count = Except.error e from hin]

/-- Witness for C9 on `3,0` with a failing input source: decode advances
the pointer to 2; the failed input request leaves the pointer advanced
and the input cursor incremented. -/
theorem C9_no_rollback_witness :
    parse_instruction (fresh [3, 0])
        = .ok ({ opcode := .Input, parameters := [{ data := 0, mode := .Position }] },
               prog3_decoded)
    ∧ no_input 0 = .error (.err "no input")
    ∧ forward (fresh [3, 0]) = (.error (.err "no input"),
        { prog3_decoded with input_count := prog3_decoded.input_count + 1 })
    ∧ prog3_decoded.pointer = (fresh [3, 0]).pointer + 1 + 1 :=
  ⟨rfl, rfl,
   (C9_no_rollback (fresh [3, 0])).2.2
     { opcode := .Input, parameters := [{ data := 0, mode := .Position }] }
     prog3_decoded { data := 0, mode := .Position } (.err "no input") rfl rfl rfl rfl,
   ((C9_no_rollback (fresh [3, 0])).1 3 .Input 1
     { opcode := .Input, parameters := [{ data := 0, mode := .Position }] }
     prog3_decoded rfl rfl rfl).1⟩

end Intcode
